import Mathlib

/-!
Shallow embedding of `src/_OLD/generator.py` (payment-code generation core):
payload encoders (HUB30, BCD), reference-number extraction, the autocrop
post-processor, the base64 output packager and the renderer wrappers.

Python `str` values are embedded as `List Char`; the Python `float` amount is
idealized as an exact rational; PIL raster images are lists of pixel rows.
Python stdlib / external-library primitives used by the source (`str.split`,
`str.join`, `int()`, `round()`, `"%d"`/`"%.2f"` formatting, `base64`,
`ImageChops.difference` + `getbbox` + `crop`) are modelled from their
documented semantics; everything else is translated line by line from the
source.
-/

namespace Generator

/-- A Python `str`, embedded as its list of characters. -/
abbrev PyStr := List Char

/-- Python `str.split(sep)` for a one-character separator: splits at every
occurrence of `sep`; the empty string yields `[""]`. -/
def pySplit (sep : Char) : PyStr → List PyStr
  | [] => [[]]
  | c :: cs =>
    if c = sep then [] :: pySplit sep cs
    else
      match pySplit sep cs with
      | [] => [[c]]
      | f :: r => (c :: f) :: r

/-- Python `sep.join(parts)`. -/
def pyJoin (sep : PyStr) : List PyStr → PyStr
  | [] => []
  | [s] => s
  | s :: rest => s ++ sep ++ pyJoin sep rest

/-- Python `str.replace(",", ".")` (one-character pattern, so a plain map). -/
def pyReplaceCommaDot (s : PyStr) : PyStr :=
  s.map (fun c => if c = ',' then '.' else c)

/-- The decimal digit character for `d < 10`. -/
def digitChar (d : Nat) : Char := Char.ofNat (48 + d)

/-- Fuel-driven accumulator loop producing the decimal digits of `n`
in front of `acc` (most significant first). -/
def digitsAux : Nat → Nat → List Char → List Char
  | 0, _, acc => acc
  | fuel + 1, n, acc =>
    if n < 10 then digitChar n :: acc
    else digitsAux fuel (n / 10) (digitChar (n % 10) :: acc)

/-- Decimal representation of a natural number (`"0"` for zero), as Python
renders a non-negative `int`. -/
def natDigits (n : Nat) : List Char := digitsAux (n + 1) n []

/-- Python zero-padded integer formatting, format spec `0` + width + `d`:
decimal rendering of an integer, left-padded
with `'0'` to width `width` (the sign, when present, counts toward the
width and precedes the padding). -/
def pyZeroPad (width : Nat) (n : Int) : PyStr :=
  if n < 0 then
    '-' :: (List.replicate (width - 1 - (natDigits n.natAbs).length) '0' ++
      natDigits n.natAbs)
  else
    List.replicate (width - (natDigits n.toNat).length) '0' ++ natDigits n.toNat

/-- Python `int()` on a real value: truncation toward zero. -/
def pyInt (q : ℚ) : Int := if q < 0 then ⌈q⌉ else ⌊q⌋

/-- Python `round()` on an exact value: round half to even. -/
def pyRound (q : ℚ) : Int :=
  if q - ⌊q⌋ < 1 / 2 then ⌊q⌋
  else if 1 / 2 < q - ⌊q⌋ then ⌊q⌋ + 1
  else if 2 ∣ ⌊q⌋ then ⌊q⌋ else ⌊q⌋ + 1

/-- The digits after scaling by 100 and rounding: integer part, `'.'`, and
exactly two fractional digits. -/
def pyTwoFrac (c : Nat) : PyStr :=
  natDigits (c / 100) ++ '.' :: [digitChar (c / 10 % 10), digitChar (c % 10)]

/-- Python fixed-point formatting with precision 2 (format spec `.2f`) on an
exact value: rendering with exactly
two digits after `'.'`. -/
def pyFormat2f (q : ℚ) : PyStr :=
  if q < 0 then '-' :: pyTwoFrac (pyRound (-q * 100)).toNat
  else pyTwoFrac (pyRound (q * 100)).toNat

/-- The read-only document view handed to the generator (class `MockDocument`). -/
structure MockDocument where
  doctype : PyStr
  name : PyStr
  company : PyStr
  grand_total : ℚ
  custom_odjel : Option PyStr
  iban : PyStr
  bic : PyStr

/-- `extract_reference_number`: derives the reference number ("poziv na broj")
from the document identifier. -/
def extract_reference_number (doc_name : PyStr) : PyStr :=
  let parts := pySplit '-' doc_name
  if 4 ≤ parts.length then
    parts.getD 1 [] ++ '-' :: parts.getD 2 [] ++ '-' :: parts.getD 3 []
  else if 3 ≤ parts.length then
    pyJoin ['-'] (parts.drop (parts.length - 3))
  else
    doc_name.take 10

/-- `get_document_type_label`: the label keyed by the document type. -/
def get_document_type_label (doc : MockDocument) : PyStr :=
  if doc.doctype = "Sales Invoice".data then "Račun br.".data
  else if doc.doctype = "Quotation".data then "Ponuda br.".data
  else if doc.doctype = "Purchase Order".data then "Narudžba br.".data
  else if doc.doctype = "Delivery Note".data then "Otpremnica br.".data
  else "Dokument br.".data

/-- `get_iban_by_department`: the source returns this constant unconditionally
(the per-department logic is commented out in the source). -/
def get_iban_by_department (_doc : MockDocument) : PyStr :=
  "HR9123600001503417252".data

/-- The local `lines` list built by `generate_hub30_payload`. -/
def hub30_lines (doc : MockDocument) : List PyStr :=
  let iban := get_iban_by_department doc
  let poziv_na_broj := extract_reference_number doc.name
  let description := "Racun br. ".data ++ poziv_na_broj
  let company_street := "Racka 1C".data
  let company_postal_code_and_city := "10250 Ježdovec".data
  [ "HRVHUB30".data,
    "EUR".data,
    pyZeroPad 15 (pyInt (doc.grand_total * 100)),
    [], [], [],
    doc.company,
    company_street,
    company_postal_code_and_city,
    iban,
    "HR00".data,
    poziv_na_broj,
    [],
    description,
    [] ]

/-- `generate_hub30_payload`: `"\n".join(lines)`. -/
def generate_hub30_payload (doc : MockDocument) : PyStr :=
  pyJoin ['\n'] (hub30_lines doc)

/-- The local `lines` list built by `generate_bcd_payload`. -/
def bcd_lines (doc : MockDocument) : List PyStr :=
  let iban := get_iban_by_department doc
  let bic := doc.bic
  let amount := pyReplaceCommaDot ("EUR".data ++ pyFormat2f doc.grand_total)
  let reference := extract_reference_number doc.name
  let doc_label := get_document_type_label doc
  let description := doc_label ++ ' ' :: reference
  [ "BCD".data,
    "002".data,
    "1".data,
    "SCT".data,
    bic,
    doc.company,
    iban,
    amount,
    [],
    reference,
    [],
    description ]

/-- `generate_bcd_payload`: `"\n".join(lines)`. -/
def generate_bcd_payload (doc : MockDocument) : PyStr :=
  pyJoin ['\n'] (bcd_lines doc)

/-- An RGB pixel. -/
abbrev Pixel := Nat × Nat × Nat

/-- The white background `Image.new(img.mode, img.size, "white")` is filled with. -/
def whitePx : Pixel := (255, 255, 255)

/-- The zero pixel: what `getbbox` treats as background in the difference image. -/
def zeroPx : Pixel := (0, 0, 0)

/-- A raster image as a list of pixel rows. -/
abbrev Img := List (List Pixel)

/-- Absolute difference of two channel values. -/
def chanDiff (a b : Nat) : Nat := Nat.dist a b

/-- Per-channel absolute difference of two pixels (`ImageChops.difference`). -/
def pixelDiff (p q : Pixel) : Pixel :=
  (chanDiff p.1 q.1, chanDiff p.2.1 q.2.1, chanDiff p.2.2 q.2.2)

/-- `ImageChops.difference(img, bg)` against the same-size white canvas. -/
def diffWhite (img : Img) : Img :=
  img.map (fun row => row.map (fun p => pixelDiff p whitePx))

/-- Coordinates `(x, y)` of the pixels of `img` that differ from `zeroPx`. -/
def contentCoords (img : Img) : List (Nat × Nat) :=
  (List.range img.length).flatMap (fun y =>
    ((List.range (img.getD y []).length).filter
      (fun x => (img.getD y []).getD x zeroPx ≠ zeroPx)).map (fun x => (x, y)))

/-- PIL `Image.getbbox`: the bounding box `(left, upper, right, lower)` of the
non-zero region, with exclusive right/lower edges, or `none` when the image
is entirely zero. -/
def getbbox (img : Img) : Option (Nat × Nat × Nat × Nat) :=
  match ((contentCoords img).map Prod.fst).min?, ((contentCoords img).map Prod.snd).min?,
        ((contentCoords img).map Prod.fst).max?, ((contentCoords img).map Prod.snd).max? with
  | some l, some t, some r, some b => some (l, t, r + 1, b + 1)
  | _, _, _, _ => none

/-- PIL `Image.crop((l, t, r, b))` for a box inside the image bounds. -/
def crop (img : Img) (box : Nat × Nat × Nat × Nat) : Img :=
  ((img.drop box.2.1).take (box.2.2.2 - box.2.1)).map
    (fun row => (row.drop box.1).take (box.2.2.1 - box.1))

/-- `auto_crop_white`: crop to the bounding box of the difference with a white
canvas; return the image unchanged when there is no bounding box. -/
def auto_crop_white (img : Img) : Img :=
  match getbbox (diffWhite img) with
  | some box => crop img box
  | none => img

/-- The base64 alphabet, in value order. -/
def b64Alphabet : List Char :=
  "ABCDEFGHIJKLMNOPQRSTUVWXYZabcdefghijklmnopqrstuvwxyz0123456789+/".data

/-- The base64 character for a 6-bit value. -/
def b64Char (n : Nat) : Char := b64Alphabet.getD n '?'

/-- The 6-bit value of a base64 character. -/
def b64Val (c : Char) : Nat := b64Alphabet.indexOf c

/-- `base64.b64encode` on a byte string: 3-byte groups become 4 alphabet
characters; a trailing group of 1 or 2 bytes is padded with `'='`. -/
def base64encode : List Nat → PyStr
  | [] => []
  | [b1] => [b64Char (b1 / 4), b64Char (b1 % 4 * 16), '=', '=']
  | [b1, b2] =>
    [b64Char (b1 / 4), b64Char (b1 % 4 * 16 + b2 / 16), b64Char (b2 % 16 * 4), '=']
  | b1 :: b2 :: b3 :: rest =>
    b64Char (b1 / 4) :: b64Char (b1 % 4 * 16 + b2 / 16) ::
      b64Char (b2 % 16 * 4 + b3 / 64) :: b64Char (b3 % 64) :: base64encode rest

/-- `base64.b64decode` on properly padded base64 text: each 4-character group
yields 3 bytes, or 1 or 2 bytes for a final `'='`-padded group. -/
def base64decode : PyStr → List Nat
  | c1 :: c2 :: c3 :: c4 :: rest =>
    if c3 = '=' then [b64Val c1 * 4 + b64Val c2 / 16]
    else if c4 = '=' then
      [b64Val c1 * 4 + b64Val c2 / 16, b64Val c2 % 16 * 16 + b64Val c3 / 4]
    else
      (b64Val c1 * 4 + b64Val c2 / 16) :: (b64Val c2 % 16 * 16 + b64Val c3 / 4) ::
        (b64Val c3 % 4 * 64 + b64Val c4) :: base64decode rest
  | _ => []

/-- `buffer_to_data_uri`: wrap the PNG bytes of the buffer in a base64 data URI. -/
def buffer_to_data_uri (png : List Nat) : PyStr :=
  "data:image/png;base64,".data ++ base64encode png

/-- Outcome of the call into an external symbology library inside a renderer
`try:` block: either the PNG bytes that reach the output buffer, or a raised
exception (e.g. `pdf417.encode` raising on a payload beyond the capacity of
`columns=9, security_level=2`). -/
inductive EncodeOutcome where
  | ok (png : List Nat)
  | raised (msg : PyStr)

/-- `get_pdf417`: returns the data URI on success; the `except` clause catches
every exception and returns the empty string. -/
def get_pdf417 : EncodeOutcome → PyStr
  | .ok png => buffer_to_data_uri png
  | .raised _ => []

/-- `get_qr_code`: returns the data URI on success; the `except` clause catches
every exception and returns the empty string. -/
def get_qr_code : EncodeOutcome → PyStr
  | .ok png => buffer_to_data_uri png
  | .raised _ => []

/-- `get_barcode_image`: returns the data URI on success; the `except` clause
catches every exception and returns the empty string. -/
def get_barcode_image : EncodeOutcome → PyStr
  | .ok png => buffer_to_data_uri png
  | .raised _ => []

/-- Observable outcome of `save_data_uri_to_file`: either the bytes written to
the file, or a normal return that wrote nothing and raised nothing. -/
inductive SaveOutcome where
  | wrote (bytes : List Nat)
  | ignored
deriving DecidableEq

/-- `save_data_uri_to_file`: writes the decoded bytes when the reference starts
with the PNG data-URI head; otherwise the `if` falls through and the function
returns normally, writing nothing and raising nothing. -/
def save_data_uri_to_file (data_uri : PyStr) : SaveOutcome :=
  if "data:image/png;base64,".data.isPrefixOf data_uri then
    .wrote (base64decode ((pySplit ',' data_uri).getD 1 []))
  else
    .ignored

/-- The defaults of `MockDocument` (its `data.get(...)` fallbacks). -/
def doc_default : MockDocument where
  doctype := "Sales Invoice".data
  name := "ACC-SINV-2024-00001".data
  company := "Moja Tvrtka d.o.o.".data
  grand_total := 1500
  custom_odjel := none
  iban := "HR1234567890123456789".data
  bic := "ZABAHR2XXXX".data

/-- The `test_data_standard` document from the source's example block. -/
def doc_standard : MockDocument where
  doctype := "Sales Invoice".data
  name := "005-2024-00123".data
  company := "Test Tvrtka d.o.o.".data
  grand_total := 2500
  custom_odjel := some "Prodaja".data
  iban := "HR1234567890123456789".data
  bic := "ZABAHR2XXXX".data

theorem pySplit_ne_nil (sep : Char) (s : PyStr) : pySplit sep s ≠ [] := by
  induction s with
  | nil => simp [pySplit]
  | cons c cs ih =>
    simp only [pySplit]
    split
    · simp
    · split
      · simp
      · simp

theorem pySplit_append_cons (sep : Char) (xs ys : PyStr) (h : sep ∉ xs) :
    pySplit sep (xs ++ sep :: ys) = xs :: pySplit sep ys := by
  induction xs with
  | nil => simp [pySplit]
  | cons x xs ih =>
    have hx : ¬ x = sep := by rintro rfl; exact h (List.mem_cons_self _ _)
    have h' : sep ∉ xs := fun hm => h (List.mem_cons_of_mem _ hm)
    simp only [List.cons_append, pySplit, if_neg hx]
    rw [List.append_eq, ih h']

theorem pySplit_of_not_mem (sep : Char) (s : PyStr) (h : sep ∉ s) :
    pySplit sep s = [s] := by
  induction s with
  | nil => rfl
  | cons c cs ih =>
    have hc : ¬ c = sep := by rintro rfl; exact h (List.mem_cons_self _ _)
    have h' : sep ∉ cs := fun hm => h (List.mem_cons_of_mem _ hm)
    simp only [pySplit, if_neg hc, ih h']

theorem pySplit_pyJoin (sep : Char) (l : List PyStr) (hne : l ≠ [])
    (h : ∀ part ∈ l, sep ∉ part) : pySplit sep (pyJoin [sep] l) = l := by
  induction l with
  | nil => cases hne rfl
  | cons s rest ih =>
    cases rest with
    | nil => exact pySplit_of_not_mem _ _ (h s (by simp))
    | cons t r =>
      have hj : pyJoin [sep] (s :: t :: r) = s ++ sep :: pyJoin [sep] (t :: r) := by
        simp [pyJoin]
      rw [hj, pySplit_append_cons _ _ _ (h s (by simp)),
        ih (by simp) (fun p hp => h p (List.mem_cons_of_mem _ hp))]

theorem mem_of_mem_pySplit (sep : Char) (s part : PyStr) (c : Char)
    (hp : part ∈ pySplit sep s) (hc : c ∈ part) : c ∈ s := by
  induction s generalizing part with
  | nil =>
    simp only [pySplit, List.mem_singleton] at hp
    subst hp
    simp at hc
  | cons a as ih =>
    simp only [pySplit] at hp
    by_cases ha : a = sep
    · rw [if_pos ha] at hp
      rcases List.mem_cons.mp hp with rfl | hp
      · simp at hc
      · exact List.mem_cons_of_mem _ (ih _ hp hc)
    · rw [if_neg ha] at hp
      rcases hps : pySplit sep as with _ | ⟨f, r⟩
      · exact absurd hps (pySplit_ne_nil _ _)
      · rw [hps] at hp
        rcases List.mem_cons.mp hp with rfl | hp
        · rcases List.mem_cons.mp hc with rfl | hcf
          · exact List.mem_cons_self _ _
          · exact List.mem_cons_of_mem _
              (ih f (by rw [hps]; exact List.mem_cons_self _ _) hcf)
        · exact List.mem_cons_of_mem _
            (ih part (by rw [hps]; exact List.mem_cons_of_mem _ hp) hc)

theorem getD_mem {α : Type} (l : List α) (i : Nat) (d : α) (h : i < l.length) :
    l.getD i d ∈ l := by
  rw [List.getD_eq_getElem?_getD, List.getElem?_eq_getElem h]
  exact List.getElem_mem h

theorem mem_pyJoin (sep : PyStr) (l : List PyStr) (c : Char)
    (hc : c ∈ pyJoin sep l) : c ∈ sep ∨ ∃ p ∈ l, c ∈ p := by
  induction l with
  | nil => simp [pyJoin] at hc
  | cons s rest ih =>
    cases rest with
    | nil => exact Or.inr ⟨s, by simp, hc⟩
    | cons t r =>
      have hj : pyJoin sep (s :: t :: r) = s ++ sep ++ pyJoin sep (t :: r) := by
        simp [pyJoin]
      rw [hj] at hc
      rcases List.mem_append.mp hc with hc₁ | hc₁
      · rcases List.mem_append.mp hc₁ with hc₂ | hc₂
        · exact Or.inr ⟨s, by simp, hc₂⟩
        · exact Or.inl hc₂
      · rcases ih hc₁ with h₁ | ⟨p, hp, hcp⟩
        · exact Or.inl h₁
        · exact Or.inr ⟨p, List.mem_cons_of_mem _ hp, hcp⟩

theorem digitsAux_chars : ∀ (fuel n : Nat) (acc : List Char) (c : Char),
    c ∈ digitsAux fuel n acc → (∃ d, d < 10 ∧ c = digitChar d) ∨ c ∈ acc
  | 0, _, _, _, h => Or.inr h
  | fuel + 1, n, acc, c, h => by
    simp only [digitsAux] at h
    split at h
    · rcases List.mem_cons.mp h with rfl | h
      · exact Or.inl ⟨n, by omega, rfl⟩
      · exact Or.inr h
    · rcases digitsAux_chars fuel (n / 10) _ c h with h' | h'
      · exact Or.inl h'
      · rcases List.mem_cons.mp h' with rfl | h'
        · exact Or.inl ⟨n % 10, by omega, rfl⟩
        · exact Or.inr h'

theorem natDigits_chars (n : Nat) (c : Char) (h : c ∈ natDigits n) :
    ∃ d, d < 10 ∧ c = digitChar d := by
  rcases digitsAux_chars _ _ _ _ h with h' | h'
  · exact h'
  · simp at h'

theorem digitsAux_length : ∀ (fuel n k : Nat) (acc : List Char),
    n < fuel → n < 10 ^ k → 1 ≤ k →
    (digitsAux fuel n acc).length ≤ k + acc.length
  | 0, _, _, _, hf, _, _ => by omega
  | fuel + 1, n, k, acc, hf, hk, h1 => by
    simp only [digitsAux]
    split
    · simp only [List.length_cons]
      omega
    · have hn10 : 10 ≤ n := by omega
      have hk2 : 2 ≤ k := by
        by_contra hcon
        interval_cases k
        · omega
      have hrec := digitsAux_length fuel (n / 10) (k - 1) (digitChar (n % 10) :: acc)
        (by have := Nat.div_lt_self (by omega : 0 < n) (by omega : 1 < 10); omega)
        (by
          have h10 : (10 : Nat) ^ (k - 1) * 10 = 10 ^ k := by
            rw [← pow_succ]
            congr 1
            omega
          rw [Nat.div_lt_iff_lt_mul (by omega : 0 < 10), h10]
          exact hk)
        (by omega)
      simp only [List.length_cons] at hrec
      omega

theorem natDigits_length_le (n k : Nat) (hk : n < 10 ^ k) (h1 : 1 ≤ k) :
    (natDigits n).length ≤ k := by
  have := digitsAux_length (n + 1) n k [] (by omega) hk h1
  simpa [natDigits] using this

theorem digitChar_props : ∀ d, d < 10 →
    digitChar d ≠ '\n' ∧ digitChar d ≠ ',' ∧ digitChar d ≠ '=' ∧ digitChar d ≠ '.' := by
  decide

theorem pyZeroPad_chars (w : Nat) (n : Int) (c : Char) (h : c ∈ pyZeroPad w n) :
    c = '-' ∨ ∃ d, d < 10 ∧ c = digitChar d := by
  simp only [pyZeroPad] at h
  split at h
  · rcases List.mem_cons.mp h with rfl | h'
    · exact Or.inl rfl
    · rcases List.mem_append.mp h' with h₂ | h₂
      · rcases List.mem_replicate.mp h₂ with ⟨-, rfl⟩
        exact Or.inr ⟨0, by omega, rfl⟩
      · exact Or.inr (natDigits_chars _ _ h₂)
  · rcases List.mem_append.mp h with h₂ | h₂
    · rcases List.mem_replicate.mp h₂ with ⟨-, rfl⟩
      exact Or.inr ⟨0, by omega, rfl⟩
    · exact Or.inr (natDigits_chars _ _ h₂)

theorem nl_not_mem_pyZeroPad (w : Nat) (n : Int) : '\n' ∉ pyZeroPad w n := by
  intro h
  rcases pyZeroPad_chars w n _ h with h' | ⟨d, hd, h'⟩
  · exact absurd h' (by decide)
  · exact absurd h'.symm (digitChar_props d hd).1

theorem not_mem_extract_reference_number (s : PyStr) (c : Char) (hc : c ≠ '-')
    (h : c ∉ s) : c ∉ extract_reference_number s := by
  intro hmem
  simp only [extract_reference_number] at hmem
  split at hmem
  · simp only [List.mem_append, List.mem_cons] at hmem
    rcases hmem with (h₁ | rfl | h₁) | rfl | h₁
    · exact h (mem_of_mem_pySplit '-' s _ c (getD_mem _ 1 _ (by omega)) h₁)
    · exact hc rfl
    · exact h (mem_of_mem_pySplit '-' s _ c (getD_mem _ 2 _ (by omega)) h₁)
    · exact hc rfl
    · exact h (mem_of_mem_pySplit '-' s _ c (getD_mem _ 3 _ (by omega)) h₁)
  · split at hmem
    · rcases mem_pyJoin _ _ _ hmem with h₁ | ⟨p, hp, hcp⟩
      · rcases List.mem_singleton.mp h₁ with rfl
        exact hc rfl
      · exact h (mem_of_mem_pySplit '-' s _ c (List.drop_subset _ _ hp) hcp)
    · exact h (List.take_subset _ _ hmem)

theorem nl_not_mem_label (doc : MockDocument) :
    '\n' ∉ get_document_type_label doc := by
  simp only [get_document_type_label]
  split
  · decide
  split
  · decide
  split
  · decide
  split
  · decide
  · decide

theorem pyTwoFrac_chars (c : Nat) (x : Char) (h : x ∈ pyTwoFrac c) :
    x = '.' ∨ ∃ d, d < 10 ∧ x = digitChar d := by
  simp only [pyTwoFrac] at h
  rcases List.mem_append.mp h with h₁ | h₁
  · exact Or.inr (natDigits_chars _ _ h₁)
  · rcases List.mem_cons.mp h₁ with rfl | h₁
    · exact Or.inl rfl
    · rcases List.mem_cons.mp h₁ with rfl | h₁
      · exact Or.inr ⟨_, by omega, rfl⟩
      · rcases List.mem_singleton.mp h₁ with rfl
        exact Or.inr ⟨_, by omega, rfl⟩

theorem pyFormat2f_chars (q : ℚ) (x : Char) (h : x ∈ pyFormat2f q) :
    x = '-' ∨ x = '.' ∨ ∃ d, d < 10 ∧ x = digitChar d := by
  simp only [pyFormat2f] at h
  split at h
  · rcases List.mem_cons.mp h with rfl | h₁
    · exact Or.inl rfl
    · rcases pyTwoFrac_chars _ _ h₁ with h₂ | h₂
      · exact Or.inr (Or.inl h₂)
      · exact Or.inr (Or.inr h₂)
  · rcases pyTwoFrac_chars _ _ h with h₂ | h₂
    · exact Or.inr (Or.inl h₂)
    · exact Or.inr (Or.inr h₂)

theorem pyReplaceCommaDot_eq_self (s : PyStr) (h : ',' ∉ s) :
    pyReplaceCommaDot s = s := by
  induction s with
  | nil => rfl
  | cons c cs ih =>
    have hc : ¬ c = ',' := by rintro rfl; exact h (List.mem_cons_self _ _)
    have h' : ',' ∉ cs := fun hm => h (List.mem_cons_of_mem _ hm)
    simp [pyReplaceCommaDot] at ih ⊢
    exact ⟨fun hcc => absurd hcc hc, ih h'⟩

theorem b64Val_b64Char : ∀ n, n < 64 → b64Val (b64Char n) = n := by decide

theorem b64Char_ne_pad : ∀ n, n < 64 → b64Char n ≠ '=' := by decide

theorem b64Alphabet_length : b64Alphabet.length = 64 := by decide

theorem b64Char_ne_comma (n : Nat) : b64Char n ≠ ',' := by
  by_cases h : n < 64
  · exact (by decide : ∀ m, m < 64 → b64Char m ≠ ',') n h
  · unfold b64Char
    rw [List.getD_eq_default _ _ (by rw [b64Alphabet_length]; omega)]
    decide

theorem base64encode_chars : ∀ (bs : List Nat) (c : Char),
    c ∈ base64encode bs → c = '=' ∨ ∃ n, c = b64Char n
  | [], _, h => by simp [base64encode] at h
  | [b1], c, h => by
    simp only [base64encode] at h
    rcases List.mem_cons.mp h with rfl | h
    · exact Or.inr ⟨_, rfl⟩
    rcases List.mem_cons.mp h with rfl | h
    · exact Or.inr ⟨_, rfl⟩
    rcases List.mem_cons.mp h with rfl | h
    · exact Or.inl rfl
    rcases List.mem_cons.mp h with rfl | h
    · exact Or.inl rfl
    · simp at h
  | [b1, b2], c, h => by
    simp only [base64encode] at h
    rcases List.mem_cons.mp h with rfl | h
    · exact Or.inr ⟨_, rfl⟩
    rcases List.mem_cons.mp h with rfl | h
    · exact Or.inr ⟨_, rfl⟩
    rcases List.mem_cons.mp h with rfl | h
    · exact Or.inr ⟨_, rfl⟩
    rcases List.mem_cons.mp h with rfl | h
    · exact Or.inl rfl
    · simp at h
  | b1 :: b2 :: b3 :: rest, c, h => by
    simp only [base64encode] at h
    rcases List.mem_cons.mp h with rfl | h
    · exact Or.inr ⟨_, rfl⟩
    rcases List.mem_cons.mp h with rfl | h
    · exact Or.inr ⟨_, rfl⟩
    rcases List.mem_cons.mp h with rfl | h
    · exact Or.inr ⟨_, rfl⟩
    rcases List.mem_cons.mp h with rfl | h
    · exact Or.inr ⟨_, rfl⟩
    · exact base64encode_chars rest c h

theorem comma_not_mem_base64encode (bs : List Nat) : ',' ∉ base64encode bs := by
  intro h
  rcases base64encode_chars bs _ h with h' | ⟨n, h'⟩
  · exact absurd h' (by decide)
  · exact absurd h'.symm (b64Char_ne_comma n)

theorem base64decode_encode : ∀ (bs : List Nat), (∀ b ∈ bs, b < 256) →
    base64decode (base64encode bs) = bs
  | [], _ => rfl
  | [b1], h => by
    have hb1 : b1 < 256 := h b1 (by simp)
    simp only [base64encode, base64decode]
    rw [if_pos trivial]
    rw [b64Val_b64Char _ (by omega), b64Val_b64Char _ (by omega)]
    simp only [List.cons.injEq, and_true]
    omega
  | [b1, b2], h => by
    have hb1 : b1 < 256 := h b1 (by simp)
    have hb2 : b2 < 256 := h b2 (by simp)
    simp only [base64encode, base64decode]
    rw [if_neg (b64Char_ne_pad _ (by omega)), if_pos trivial]
    rw [b64Val_b64Char _ (by omega), b64Val_b64Char _ (by omega),
      b64Val_b64Char _ (by omega)]
    simp only [List.cons.injEq, and_true]
    constructor
    · omega
    · omega
  | b1 :: b2 :: b3 :: b4 :: rest, h => by
    have hb1 : b1 < 256 := h b1 (by simp)
    have hb2 : b2 < 256 := h b2 (by simp)
    have hb3 : b3 < 256 := h b3 (by simp)
    simp only [base64encode, base64decode]
    rw [if_neg (b64Char_ne_pad _ (by omega)), if_neg (b64Char_ne_pad _ (by omega))]
    rw [b64Val_b64Char _ (by omega), b64Val_b64Char _ (by omega),
      b64Val_b64Char _ (by omega), b64Val_b64Char _ (by omega)]
    rw [base64decode_encode (b4 :: rest) (fun b hb => h b (by simp at hb ⊢; tauto))]
    simp only [List.cons.injEq]
    refine ⟨by omega, by omega, by omega, by trivial⟩
  | [b1, b2, b3], h => by
    have hb1 : b1 < 256 := h b1 (by simp)
    have hb2 : b2 < 256 := h b2 (by simp)
    have hb3 : b3 < 256 := h b3 (by simp)
    simp only [base64encode, base64decode]
    rw [if_neg (b64Char_ne_pad _ (by omega)), if_neg (b64Char_ne_pad _ (by omega))]
    rw [b64Val_b64Char _ (by omega), b64Val_b64Char _ (by omega),
      b64Val_b64Char _ (by omega), b64Val_b64Char _ (by omega)]
    simp only [List.cons.injEq]
    refine ⟨by omega, by omega, by omega, by trivial⟩

theorem isPrefixOf_append_self (a b : List Char) : a.isPrefixOf (a ++ b) = true := by
  induction a with
  | nil => simp [List.isPrefixOf]
  | cons x xs ih => simp [List.isPrefixOf, ih]

theorem natMin?_eq_some (l : List Nat) (a : Nat) :
    l.min? = some a ↔ a ∈ l ∧ ∀ b ∈ l, a ≤ b :=
  List.min?_eq_some_iff (fun _ => le_refl _) min_choice (fun _ _ _ => le_min_iff)

theorem natMax?_eq_some (l : List Nat) (a : Nat) :
    l.max? = some a ↔ a ∈ l ∧ ∀ b ∈ l, b ≤ a :=
  List.max?_eq_some_iff (fun _ => le_refl _) max_choice (fun _ _ _ => max_le_iff)

theorem mem_contentCoords (img : Img) (x y : Nat) :
    (x, y) ∈ contentCoords img ↔
      y < img.length ∧ x < (img.getD y []).length ∧
        (img.getD y []).getD x zeroPx ≠ zeroPx := by
  simp only [contentCoords, List.mem_flatMap, List.mem_map, List.mem_filter,
    List.mem_range, decide_eq_true_eq, Prod.mk.injEq]
  constructor
  · rintro ⟨y', hy', x', ⟨hx', hnz⟩, rfl, rfl⟩
    exact ⟨hy', hx', hnz⟩
  · rintro ⟨hy, hx, hnz⟩
    exact ⟨y, hy, x, ⟨hx, hnz⟩, rfl, rfl⟩

theorem getD_take_drop {α : Type} (row : List α) (l n x : Nat) (d : α) (h : x < n) :
    ((row.drop l).take n).getD x d = row.getD (l + x) d := by
  rw [List.getD_eq_getElem?_getD, List.getElem?_take, if_pos h, List.getElem?_drop,
    ← List.getD_eq_getElem?_getD]

theorem crop_length (img : Img) (l t r b : Nat) :
    (crop img (l, t, r, b)).length = min (b - t) (img.length - t) := by
  simp [crop]

theorem crop_getD (img : Img) (l t r b y : Nat) (h1 : y < b - t)
    (h2 : t + y < img.length) :
    (crop img (l, t, r, b)).getD y [] = ((img.getD (t + y) []).drop l).take (r - l) := by
  simp only [crop]
  rw [List.getD_eq_getElem?_getD, List.getElem?_map, List.getElem?_take, if_pos h1,
    List.getElem?_drop, List.getD_eq_getElem?_getD]
  cases hy : img[t + y]? with
  | none =>
    rw [List.getElem?_eq_none_iff] at hy
    omega
  | some row => rfl

theorem content_crop (D : Img) (l t r b x y : Nat)
    (hub : ∀ p ∈ contentCoords D, l ≤ p.1 ∧ p.1 < r ∧ t ≤ p.2 ∧ p.2 < b) :
    (x, y) ∈ contentCoords (crop D (l, t, r, b)) ↔
      (l + x, t + y) ∈ contentCoords D := by
  constructor
  · intro hm
    rw [mem_contentCoords] at hm ⊢
    obtain ⟨hy, hx, hnz⟩ := hm
    rw [crop_length] at hy
    have h1 : y < b - t := lt_of_lt_of_le hy (min_le_left _ _)
    have h2 : t + y < D.length := by
      have := lt_of_lt_of_le hy (min_le_right _ _)
      omega
    rw [crop_getD D l t r b y h1 h2] at hx hnz
    rw [List.length_take, List.length_drop] at hx
    have hx1 : x < r - l := lt_of_lt_of_le hx (min_le_left _ _)
    have hx2 : l + x < (D.getD (t + y) []).length := by
      have := lt_of_lt_of_le hx (min_le_right _ _)
      omega
    rw [getD_take_drop _ _ _ _ _ hx1] at hnz
    exact ⟨h2, hx2, hnz⟩
  · intro hm
    have hp := hub (l + x, t + y) hm
    rw [mem_contentCoords] at hm ⊢
    obtain ⟨hy, hx, hnz⟩ := hm
    simp only at hp
    have h1 : y < b - t := by omega
    rw [crop_length, crop_getD D l t r b y h1 hy, List.length_take, List.length_drop,
      getD_take_drop _ _ _ _ _ (by omega : x < r - l)]
    refine ⟨by omega, by omega, hnz⟩

theorem getbbox_eq_some_of (D : Img) (l t m n : Nat)
    (h1 : ((contentCoords D).map Prod.fst).min? = some l)
    (h2 : ((contentCoords D).map Prod.snd).min? = some t)
    (h3 : ((contentCoords D).map Prod.fst).max? = some m)
    (h4 : ((contentCoords D).map Prod.snd).max? = some n) :
    getbbox D = some (l, t, m + 1, n + 1) := by
  unfold getbbox
  rw [h1, h2, h3, h4]

theorem getbbox_spec (D : Img) (l t r b : Nat) (h : getbbox D = some (l, t, r, b)) :
    ((contentCoords D).map Prod.fst).min? = some l ∧
    ((contentCoords D).map Prod.snd).min? = some t ∧
    ((contentCoords D).map Prod.fst).max? = some (r - 1) ∧
    ((contentCoords D).map Prod.snd).max? = some (b - 1) ∧ 1 ≤ r ∧ 1 ≤ b := by
  unfold getbbox at h
  split at h
  next l₀ t₀ m n h1 h2 h3 h4 =>
    rw [Option.some.injEq, Prod.mk.injEq, Prod.mk.injEq, Prod.mk.injEq] at h
    obtain ⟨rfl, rfl, rfl, rfl⟩ := h
    refine ⟨h1, h2, ?_, ?_, by omega, by omega⟩
    · simpa using h3
    · simpa using h4
  next => exact absurd h (by simp)

theorem getbbox_bounds (D : Img) (l t r b : Nat) (h : getbbox D = some (l, t, r, b)) :
    (∃ p ∈ contentCoords D, p.1 = l) ∧ (∃ p ∈ contentCoords D, p.2 = t) ∧
    (∃ p ∈ contentCoords D, p.1 = r - 1) ∧ (∃ p ∈ contentCoords D, p.2 = b - 1) ∧
    (∀ p ∈ contentCoords D, l ≤ p.1 ∧ p.1 < r ∧ t ≤ p.2 ∧ p.2 < b) ∧ l < r ∧ t < b := by
  obtain ⟨h1, h2, h3, h4, hr, hb⟩ := getbbox_spec D l t r b h
  rw [natMin?_eq_some] at h1 h2
  rw [natMax?_eq_some] at h3 h4
  obtain ⟨hm1, hb1⟩ := h1
  obtain ⟨hm2, hb2⟩ := h2
  obtain ⟨hm3, hb3⟩ := h3
  obtain ⟨hm4, hb4⟩ := h4
  rw [List.mem_map] at hm1 hm2 hm3 hm4
  obtain ⟨p1, hp1, he1⟩ := hm1
  obtain ⟨p2, hp2, he2⟩ := hm2
  obtain ⟨p3, hp3, he3⟩ := hm3
  obtain ⟨p4, hp4, he4⟩ := hm4
  have hbound : ∀ p ∈ contentCoords D, l ≤ p.1 ∧ p.1 < r ∧ t ≤ p.2 ∧ p.2 < b := by
    intro p hp
    have g1 := hb1 p.1 (List.mem_map.mpr ⟨p, hp, rfl⟩)
    have g2 := hb2 p.2 (List.mem_map.mpr ⟨p, hp, rfl⟩)
    have g3 := hb3 p.1 (List.mem_map.mpr ⟨p, hp, rfl⟩)
    have g4 := hb4 p.2 (List.mem_map.mpr ⟨p, hp, rfl⟩)
    omega
  refine ⟨⟨p1, hp1, he1⟩, ⟨p2, hp2, he2⟩, ⟨p3, hp3, he3⟩, ⟨p4, hp4, he4⟩, hbound, ?_, ?_⟩
  · have := (hbound p1 hp1).2.1
    omega
  · have := (hbound p2 hp2).2.2.2
    omega

theorem getbbox_crop (D : Img) (l t r b : Nat) (h : getbbox D = some (l, t, r, b)) :
    getbbox (crop D (l, t, r, b)) = some (0, 0, r - l, b - t) := by
  obtain ⟨⟨pl, hpl, hel⟩, ⟨pt, hpt, het⟩, ⟨pr, hpr, her⟩, ⟨pb, hpb, heb⟩,
    hub, hlr, htb⟩ := getbbox_bounds D l t r b h
  have hshift : ∀ x y : Nat, (x, y) ∈ contentCoords (crop D (l, t, r, b)) ↔
      (l + x, t + y) ∈ contentCoords D := fun x y => content_crop D l t r b x y hub
  have hmem : ∀ p ∈ contentCoords D,
      (p.1 - l, p.2 - t) ∈ contentCoords (crop D (l, t, r, b)) := by
    intro p hp
    have hbp := hub p hp
    rw [hshift]
    have e1 : l + (p.1 - l) = p.1 := by omega
    have e2 : t + (p.2 - t) = p.2 := by omega
    rw [e1, e2, Prod.mk.eta]
    exact hp
  have hrev : ∀ q ∈ contentCoords (crop D (l, t, r, b)),
      (l + q.1, t + q.2) ∈ contentCoords D := by
    intro q hq
    rw [← Prod.mk.eta (p := q), hshift] at hq
    exact hq
  have hminx : ((contentCoords (crop D (l, t, r, b))).map Prod.fst).min? = some 0 := by
    rw [natMin?_eq_some]
    refine ⟨List.mem_map.mpr ⟨(pl.1 - l, pl.2 - t), hmem pl hpl, by rw [hel]; omega⟩,
      fun v _ => Nat.zero_le v⟩
  have hminy : ((contentCoords (crop D (l, t, r, b))).map Prod.snd).min? = some 0 := by
    rw [natMin?_eq_some]
    refine ⟨List.mem_map.mpr ⟨(pt.1 - l, pt.2 - t), hmem pt hpt, by rw [het]; omega⟩,
      fun v _ => Nat.zero_le v⟩
  have hmaxx : ((contentCoords (crop D (l, t, r, b))).map Prod.fst).max?
      = some (r - 1 - l) := by
    rw [natMax?_eq_some]
    constructor
    · exact List.mem_map.mpr ⟨(pr.1 - l, pr.2 - t), hmem pr hpr, by rw [her]⟩
    · intro v hv
      rw [List.mem_map] at hv
      obtain ⟨q, hq, rfl⟩ := hv
      have := hub _ (hrev q hq)
      simp only at this
      omega
  have hmaxy : ((contentCoords (crop D (l, t, r, b))).map Prod.snd).max?
      = some (b - 1 - t) := by
    rw [natMax?_eq_some]
    constructor
    · exact List.mem_map.mpr ⟨(pb.1 - l, pb.2 - t), hmem pb hpb, by rw [heb]⟩
    · intro v hv
      rw [List.mem_map] at hv
      obtain ⟨q, hq, rfl⟩ := hv
      have := hub _ (hrev q hq)
      simp only at this
      omega
  have hfin := getbbox_eq_some_of _ _ _ _ _ hminx hminy hmaxx hmaxy
  have e1 : r - 1 - l + 1 = r - l := by omega
  have e2 : b - 1 - t + 1 = b - t := by omega
  rw [hfin, e1, e2]

theorem diffWhite_crop (X : Img) (l t r b : Nat) :
    diffWhite (crop X (l, t, r, b)) = crop (diffWhite X) (l, t, r, b) := by
  simp only [diffWhite, crop]
  rw [← List.map_drop, ← List.map_take, List.map_map, List.map_map]
  apply List.map_congr_left
  intro row _
  simp only [Function.comp_apply]
  rw [← List.map_drop, ← List.map_take]

theorem crop_crop (X : Img) (l t r b : Nat) :
    crop (crop X (l, t, r, b)) (0, 0, r - l, b - t) = crop X (l, t, r, b) := by
  simp only [crop, List.drop_zero, Nat.sub_zero]
  rw [← List.map_take, List.take_take, min_self, List.map_map]
  apply List.map_congr_left
  intro row _
  simp only [Function.comp_apply, List.drop_zero, List.take_take, min_self]

theorem getD_map_of_lt {α β : Type} (f : α → β) (row : List α) (x : Nat) (d : α)
    (e : β) (h : x < row.length) : (row.map f).getD x e = f (row.getD x d) := by
  rw [List.getD_eq_getElem?_getD, List.getElem?_map, List.getD_eq_getElem?_getD]
  cases hr : row[x]? with
  | none =>
    rw [List.getElem?_eq_none_iff] at hr
    omega
  | some p => rfl

theorem contentCoords_nil_of_white (img : Img)
    (hw : ∀ row ∈ img, ∀ p ∈ row, p = whitePx) :
    contentCoords (diffWhite img) = [] := by
  rw [List.eq_nil_iff_forall_not_mem]
  rintro ⟨x, y⟩ hm
  rw [mem_contentCoords] at hm
  obtain ⟨hy, hx, hnz⟩ := hm
  have hlen : (diffWhite img).length = img.length := by simp [diffWhite]
  have hrow : (diffWhite img).getD y []
      = (img.getD y []).map (fun p => pixelDiff p whitePx) := by
    rw [List.getD_eq_getElem?_getD, List.getD_eq_getElem?_getD]
    simp only [diffWhite, List.getElem?_map]
    cases himg : img[y]? with
    | none => rfl
    | some row => rfl
  rw [hrow, List.length_map] at hx
  rw [hrow] at hnz
  have hwhite : (img.getD y []).getD x whitePx = whitePx :=
    hw (img.getD y []) (getD_mem img y [] (by rwa [hlen] at hy))
      ((img.getD y []).getD x whitePx) (getD_mem _ x whitePx hx)
  rw [getD_map_of_lt _ _ _ whitePx _ hx, hwhite] at hnz
  exact hnz (by decide)

theorem getbbox_none_of_nil (D : Img) (h : contentCoords D = []) : getbbox D = none := by
  unfold getbbox
  rw [h]
  rfl

theorem pyInt_natCast (n : Nat) : pyInt ((n : ℚ)) = n := by
  unfold pyInt
  rw [if_neg (not_lt.mpr (Nat.cast_nonneg n)), Int.floor_natCast]

theorem pyRound_natCast (n : Nat) : pyRound ((n : ℚ)) = n := by
  unfold pyRound
  rw [Int.floor_natCast]
  rw [if_pos (by push_cast; norm_num : ((n : ℚ)) - (((n : ℤ)) : ℚ) < 1 / 2)]

theorem pyZeroPad_natCast_length (n : Nat) (h : n < 10 ^ 15) :
    (pyZeroPad 15 ((n : ℤ))).length = 15 := by
  unfold pyZeroPad
  rw [if_neg (not_lt.mpr (Int.natCast_nonneg n)), Int.toNat_natCast,
    List.length_append, List.length_replicate]
  have := natDigits_length_le n 15 h (by omega)
  omega

theorem pyZeroPad_natCast_chars (w : Nat) (n : Nat) (c : Char)
    (hc : c ∈ pyZeroPad w ((n : ℤ))) : ∃ d, d < 10 ∧ c = digitChar d := by
  unfold pyZeroPad at hc
  rw [if_neg (not_lt.mpr (Int.natCast_nonneg n)), Int.toNat_natCast] at hc
  rcases List.mem_append.mp hc with h | h
  · rcases List.mem_replicate.mp h with ⟨-, rfl⟩
    exact ⟨0, by omega, rfl⟩
  · exact natDigits_chars _ _ h

theorem bcd_amount_no_comma (q : ℚ) : ',' ∉ "EUR".data ++ pyFormat2f q := by
  intro hmem
  rcases List.mem_append.mp hmem with h' | h'
  · revert h'
    decide
  · rcases pyFormat2f_chars _ _ h' with h₂ | h₂ | ⟨d, hd, h₂⟩
    · exact absurd h₂ (by decide)
    · exact absurd h₂ (by decide)
    · exact absurd h₂.symm (digitChar_props d hd).2.1

theorem nl_not_mem_bcd_amount (q : ℚ) :
    '\n' ∉ pyReplaceCommaDot ("EUR".data ++ pyFormat2f q) := by
  intro h
  simp only [pyReplaceCommaDot, List.mem_map] at h
  obtain ⟨x, hx, hfx⟩ := h
  rcases List.mem_append.mp hx with h' | h'
  · simp only [List.mem_cons, List.not_mem_nil, or_false] at h'
    rcases h' with rfl | rfl | rfl <;> revert hfx <;> decide
  · rcases pyFormat2f_chars _ _ h' with rfl | rfl | ⟨d, hd, rfl⟩
    · revert hfx; decide
    · revert hfx; decide
    · rw [if_neg (digitChar_props d hd).2.1] at hfx
      exact absurd hfx (digitChar_props d hd).1

theorem auto_crop_of_none (img : Img) (h : getbbox (diffWhite img) = none) :
    auto_crop_white img = img := by
  unfold auto_crop_white
  rw [h]

theorem auto_crop_of_some (img : Img) (l t r b : Nat)
    (h : getbbox (diffWhite img) = some (l, t, r, b)) :
    auto_crop_white img = crop img (l, t, r, b) := by
  unfold auto_crop_white
  rw [h]

theorem doc_default_cents : doc_default.grand_total * 100 = ((150000 : Nat) : ℚ) := by
  norm_num [doc_default]

theorem doc_standard_cents : doc_standard.grand_total * 100 = ((250000 : Nat) : ℚ) := by
  norm_num [doc_standard]

/-- C4: reference-number extraction is a pure total function of the identifier
implementing the three-branch rule (four or more dash segments: segments
1,2,3 joined by `-`; three segments: the last three joined; otherwise the
first 10 characters), and it maps the three documented examples accordingly. -/
theorem extract_reference_number_spec :
    (∀ s : PyStr,
      (4 ≤ (pySplit '-' s).length →
        extract_reference_number s =
          pyJoin ['-'] [(pySplit '-' s).getD 1 [], (pySplit '-' s).getD 2 [],
            (pySplit '-' s).getD 3 []]) ∧
      (¬ 4 ≤ (pySplit '-' s).length → 3 ≤ (pySplit '-' s).length →
        extract_reference_number s =
          pyJoin ['-'] ((pySplit '-' s).drop ((pySplit '-' s).length - 3))) ∧
      (¬ 3 ≤ (pySplit '-' s).length → extract_reference_number s = s.take 10)) ∧
    extract_reference_number "ACC-SINV-2024-00001".data = "SINV-2024-00001".data ∧
    extract_reference_number "005-2024-00123".data = "005-2024-00123".data ∧
    extract_reference_number "AB".data = "AB".data := by
  refine ⟨fun s => ⟨?_, ?_, ?_⟩, by decide, by decide, by decide⟩
  · intro h4
    simp only [extract_reference_number, if_pos h4, pyJoin]
    simp [List.append_assoc]
  · intro h4 h3
    simp only [extract_reference_number, if_neg h4, if_pos h3]
  · intro h3
    have h4 : ¬ 4 ≤ (pySplit '-' s).length := by omega
    simp only [extract_reference_number, if_neg h4, if_neg h3]

/-- Witness for C4: the first documented example lands in the four-segment
branch and evaluates as the claim states. -/
theorem extract_reference_number_spec_witness :
    4 ≤ (pySplit '-' "ACC-SINV-2024-00001".data).length ∧
    extract_reference_number "ACC-SINV-2024-00001".data =
      pyJoin ['-'] [(pySplit '-' "ACC-SINV-2024-00001".data).getD 1 [],
        (pySplit '-' "ACC-SINV-2024-00001".data).getD 2 [],
        (pySplit '-' "ACC-SINV-2024-00001".data).getD 3 []] :=
  ⟨by decide, (extract_reference_number_spec.1 "ACC-SINV-2024-00001".data).1 (by decide)⟩

/-- C10: `get_iban_by_department` returns the single constant for every
document view, whatever its department classifier or `iban` attribute, and
that constant is the payee-IBAN field of both payloads (HUB30 field 10,
index 9; BCD field 7, index 6). -/
theorem iban_constant_everywhere (doc : MockDocument) :
    get_iban_by_department doc = "HR9123600001503417252".data ∧
    (hub30_lines doc).getD 9 [] = "HR9123600001503417252".data ∧
    (bcd_lines doc).getD 6 [] = "HR9123600001503417252".data :=
  ⟨rfl, rfl, rfl⟩

/-- C1: when the amount is exactly `n` minor units with `n < 10^15`, the third
HUB30 field equals `round(amount * 100)` rendered zero-padded to width 15; it
is 15 characters long and all characters are decimal digits. -/
theorem hub30_amount_field_spec (doc : MockDocument) (n : Nat)
    (hn : doc.grand_total * 100 = ((n : ℚ))) (hlt : n < 10 ^ 15) :
    (hub30_lines doc).getD 2 [] = pyZeroPad 15 (pyRound (doc.grand_total * 100)) ∧
    ((hub30_lines doc).getD 2 []).length = 15 ∧
    ∀ c ∈ (hub30_lines doc).getD 2 [], ∃ d, d < 10 ∧ c = digitChar d := by
  have hfield : (hub30_lines doc).getD 2 []
      = pyZeroPad 15 (pyInt (doc.grand_total * 100)) := rfl
  rw [hfield, hn, pyInt_natCast, pyRound_natCast]
  exact ⟨rfl, pyZeroPad_natCast_length n hlt,
    fun c hc => pyZeroPad_natCast_chars 15 n c hc⟩

/-- Witness for C1 at the document defaults (amount 1500.00): the field is the
example string of the claim. -/
theorem hub30_amount_field_spec_witness :
    (hub30_lines doc_default).getD 2 [] = "000000000150000".data := by
  have h := (hub30_amount_field_spec doc_default 150000 doc_default_cents
    (by decide)).1
  rw [h, doc_default_cents, pyRound_natCast]
  decide

/-- C5 (refuted): each renderer catches the exception raised by its external
encoder and substitutes the empty string for the failure, so no typed error
reaches the caller. -/
theorem renderers_swallow_failures (msg : PyStr) :
    get_pdf417 (.raised msg) = [] ∧ get_qr_code (.raised msg) = [] ∧
    get_barcode_image (.raised msg) = [] :=
  ⟨rfl, rfl, rfl⟩

/-- C6 (refuted): a reference that does not start with the expected head is
silently ignored by `save_data_uri_to_file`: a normal return with no write
and no error. -/
theorem save_silently_ignores_bad_head :
    save_data_uri_to_file "hello".data = SaveOutcome.ignored := by decide

/-- C2: the HUB30 payload splits on newline into exactly these 15 fields in
this fixed order (symbol identifier, currency, amount, three blank payer
fields, payee name, street, postal code and city, payee IBAN, model code,
reference number, blank purpose code, description, blank reserved field),
for every document view whose free-text fields carry no newline — the
premise under which "field" is well defined for a newline-delimited grammar. -/
theorem hub30_payload_fields (doc : MockDocument)
    (hco : '\n' ∉ doc.company) (hna : '\n' ∉ doc.name) :
    pySplit '\n' (generate_hub30_payload doc) =
      [ "HRVHUB30".data,
        "EUR".data,
        pyZeroPad 15 (pyInt (doc.grand_total * 100)),
        [], [], [],
        doc.company,
        "Racka 1C".data,
        "10250 Ježdovec".data,
        get_iban_by_department doc,
        "HR00".data,
        extract_reference_number doc.name,
        [],
        "Racun br. ".data ++ extract_reference_number doc.name,
        [] ] ∧
    (pySplit '\n' (generate_hub30_payload doc)).length = 15 := by
  have href : '\n' ∉ extract_reference_number doc.name :=
    not_mem_extract_reference_number doc.name '\n' (by decide) hna
  have hfields : ∀ part ∈ hub30_lines doc, '\n' ∉ part := by
    intro part hp
    simp only [hub30_lines, List.mem_cons, List.not_mem_nil, or_false] at hp
    rcases hp with rfl | rfl | rfl | rfl | rfl | rfl | rfl | rfl | rfl | rfl | rfl |
      rfl | rfl | rfl | rfl
    · decide
    · decide
    · exact nl_not_mem_pyZeroPad _ _
    · decide
    · decide
    · decide
    · exact hco
    · decide
    · decide
    · unfold get_iban_by_department
      decide
    · decide
    · exact href
    · decide
    · intro hmem
      rcases List.mem_append.mp hmem with h | h
      · revert h
        decide
      · exact href h
    · decide
  have hsplit := pySplit_pyJoin '\n' (hub30_lines doc) (by simp [hub30_lines]) hfields
  unfold generate_hub30_payload
  rw [hsplit]
  exact ⟨rfl, rfl⟩

/-- Witness for C2 at the source's standard example document. -/
theorem hub30_payload_fields_witness :
    (pySplit '\n' (generate_hub30_payload doc_standard)).length = 15 :=
  (hub30_payload_fields doc_standard (by decide) (by decide)).2

/-- C3: the BCD payload splits on newline into exactly these 12 fields in this
fixed order (service tag, version, character set, identification code, payee
BIC, payee name, payee IBAN, amount, blank purpose, structured reference,
blank, unstructured description), for every document view whose free-text
fields carry no newline. -/
theorem bcd_payload_fields (doc : MockDocument)
    (hco : '\n' ∉ doc.company) (hna : '\n' ∉ doc.name) (hbic : '\n' ∉ doc.bic) :
    pySplit '\n' (generate_bcd_payload doc) =
      [ "BCD".data,
        "002".data,
        "1".data,
        "SCT".data,
        doc.bic,
        doc.company,
        get_iban_by_department doc,
        pyReplaceCommaDot ("EUR".data ++ pyFormat2f doc.grand_total),
        [],
        extract_reference_number doc.name,
        [],
        get_document_type_label doc ++ ' ' :: extract_reference_number doc.name ] ∧
    (pySplit '\n' (generate_bcd_payload doc)).length = 12 := by
  have href : '\n' ∉ extract_reference_number doc.name :=
    not_mem_extract_reference_number doc.name '\n' (by decide) hna
  have hfields : ∀ part ∈ bcd_lines doc, '\n' ∉ part := by
    intro part hp
    simp only [bcd_lines, List.mem_cons, List.not_mem_nil, or_false] at hp
    rcases hp with rfl | rfl | rfl | rfl | rfl | rfl | rfl | rfl | rfl | rfl |
      rfl | rfl
    · decide
    · decide
    · decide
    · decide
    · exact hbic
    · exact hco
    · unfold get_iban_by_department
      decide
    · exact nl_not_mem_bcd_amount _
    · decide
    · exact href
    · decide
    · intro hmem
      rcases List.mem_append.mp hmem with h | h
      · exact nl_not_mem_label doc h
      · rcases List.mem_cons.mp h with h' | h'
        · exact absurd h'.symm (by decide)
        · exact href h'
  have hsplit := pySplit_pyJoin '\n' (bcd_lines doc) (by simp [bcd_lines]) hfields
  unfold generate_bcd_payload
  rw [hsplit]
  exact ⟨rfl, rfl⟩

/-- Witness for C3 at the source's standard example document. -/
theorem bcd_payload_fields_witness :
    (pySplit '\n' (generate_bcd_payload doc_standard)).length = 12 :=
  (bcd_payload_fields doc_standard (by decide) (by decide) (by decide)).2

/-- C9: with a non-negative amount, the BCD amount field is exactly the
literal `"EUR"` followed by the rounded amount with `'.'` and exactly two
decimal digits, and the field never contains `','`. -/
theorem bcd_amount_field_spec (doc : MockDocument) (h : 0 ≤ doc.grand_total) :
    (bcd_lines doc).getD 7 [] =
      "EUR".data ++ (natDigits ((pyRound (doc.grand_total * 100)).toNat / 100) ++
        '.' :: [digitChar ((pyRound (doc.grand_total * 100)).toNat / 10 % 10),
          digitChar ((pyRound (doc.grand_total * 100)).toNat % 10)]) ∧
    ',' ∉ (bcd_lines doc).getD 7 [] := by
  have hfield : (bcd_lines doc).getD 7 []
      = pyReplaceCommaDot ("EUR".data ++ pyFormat2f doc.grand_total) := rfl
  have hnocomma := bcd_amount_no_comma doc.grand_total
  have hnf : pyFormat2f doc.grand_total
      = pyTwoFrac (pyRound (doc.grand_total * 100)).toNat := by
    unfold pyFormat2f
    rw [if_neg (not_lt.mpr h)]
  constructor
  · rw [hfield, pyReplaceCommaDot_eq_self _ hnocomma, hnf]
    rfl
  · rw [hfield, pyReplaceCommaDot_eq_self _ hnocomma]
    exact hnocomma

/-- Witness for C9 at the standard example document (amount 2500.0): the field
evaluates to the claim's example string. -/
theorem bcd_amount_field_spec_witness :
    (bcd_lines doc_standard).getD 7 [] = "EUR2500.00".data := by
  have h := (bcd_amount_field_spec doc_standard (by decide)).1
  rw [h, doc_standard_cents, pyRound_natCast]
  decide

/-- C7: the packager round-trips: decoding the data URI built by
`buffer_to_data_uri` the way `save_data_uri_to_file` decodes it (take the
text after the comma and base64-decode) returns exactly the original PNG
bytes, and those bytes are what the save path persists. -/
theorem packager_roundtrip (png : List Nat) (h : ∀ b ∈ png, b < 256) :
    base64decode ((pySplit ',' (buffer_to_data_uri png)).getD 1 []) = png ∧
    save_data_uri_to_file (buffer_to_data_uri png) = SaveOutcome.wrote png := by
  have hsplit : pySplit ',' (buffer_to_data_uri png)
      = ["data:image/png;base64".data, base64encode png] := by
    unfold buffer_to_data_uri
    rw [show "data:image/png;base64,".data
      = "data:image/png;base64".data ++ [','] from rfl, List.append_assoc,
      List.singleton_append,
      pySplit_append_cons _ _ _ (by decide),
      pySplit_of_not_mem _ _ (comma_not_mem_base64encode png)]
  have hdecoded : base64decode ((pySplit ',' (buffer_to_data_uri png)).getD 1 [])
      = png := by
    rw [hsplit]
    exact base64decode_encode png h
  refine ⟨hdecoded, ?_⟩
  have hpre : "data:image/png;base64,".data.isPrefixOf (buffer_to_data_uri png)
      = true := by
    unfold buffer_to_data_uri
    exact isPrefixOf_append_self _ _
  unfold save_data_uri_to_file
  rw [if_pos hpre, hdecoded]

/-- Witness for C7 on the eight-byte PNG signature. -/
theorem packager_roundtrip_witness :
    save_data_uri_to_file (buffer_to_data_uri [137, 80, 78, 71, 13, 10, 26, 10])
      = SaveOutcome.wrote [137, 80, 78, 71, 13, 10, 26, 10] :=
  (packager_roundtrip [137, 80, 78, 71, 13, 10, 26, 10] (by decide)).2

/-- C8: `auto_crop_white` is idempotent, and on an image every pixel of which
equals the white background it returns the image unchanged. -/
theorem auto_crop_white_idempotent (img : Img) :
    auto_crop_white (auto_crop_white img) = auto_crop_white img ∧
    ((∀ row ∈ img, ∀ p ∈ row, p = whitePx) → auto_crop_white img = img) := by
  constructor
  · rcases hbb : getbbox (diffWhite img) with _ | ⟨l, t, r, b⟩
    · rw [auto_crop_of_none _ hbb, auto_crop_of_none _ hbb]
    · have h2 : getbbox (diffWhite (crop img (l, t, r, b)))
          = some (0, 0, r - l, b - t) := by
        rw [diffWhite_crop]
        exact getbbox_crop _ _ _ _ _ hbb
      rw [auto_crop_of_some _ _ _ _ _ hbb, auto_crop_of_some _ _ _ _ _ h2,
        crop_crop]
  · intro hw
    exact auto_crop_of_none _ (getbbox_none_of_nil _ (contentCoords_nil_of_white _ hw))

/-- Witness for C8: a one-pixel all-white image is returned unchanged. -/
theorem auto_crop_white_idempotent_witness :
    auto_crop_white [[whitePx]] = [[whitePx]] :=
  (auto_crop_white_idempotent [[whitePx]]).2 (by decide)

end Generator
